import Mathlib

/-!
# gotestutils: golden-file assertions and YAML environment loading

A shallow embedding of `golden.go` and `testutils.go`.

The package is glue code over the operating system (files, environment
variables, command-line flags) and two libraries (a golden-file comparison and
a YAML parser).  The operating-system state is made explicit:

* the filesystem is a map from path to an optional node (directory or file),
* the process environment is a map from variable name to an optional value,
* the command-line flags are the declared names and the names that were set.

Library calls whose code is not part of the package are either embedded from
their documented behaviour (`os`, `flag`, `strings`) or taken as parameters
(the golden-file comparison, the YAML parser, the JSON marshaller).
-/

namespace Gotestutils

/-! ## Constants of golden.go -/

/-- The shared test name suffix of all tests that run against golden files. -/
def GoldenTestFunctionSuffix : String := "Snapshot"

/-- The directory, relative to the test file, that stores golden files. -/
def GoldenDir : String := "testdata"

/-- The flag that is passed to `go test` to update the golden files. -/
def GoldenUpdateFlag : String := "test.update-golden"

/-- The number of spaces to indent JSON in the golden files. -/
def JSONIndent : Int := 2

/-! ## Operating-system state -/

/-- A filesystem node: a directory, or a regular file with its content. -/
inductive Node where
  | dir
  | file (content : String)
deriving DecidableEq, Repr

/-- The filesystem: what is found at each path, if anything. -/
abbrev FS := String → Option Node

/-- The errors of the `os` package that the package can observe. -/
inductive OsError where
  | notExist
  | exist
  | isDir
  | invalid
deriving DecidableEq, Repr

/-- The filesystem without any entry. -/
def emptyFS : FS := fun _ => none

/-- The result of `os.Stat(name)`: the node, or a not-exist error when nothing is at `name`. -/
def os.Stat (fs : FS) (name : String) : Except OsError Node :=
  match fs name with
  | some nd => .ok nd
  | none => .error .notExist

/-- The `err` component of a Go `(value, err)` result; `none` is Go's `nil`. -/
def errOf {ε α : Type} : Except ε α → Option ε
  | .ok _ => none
  | .error e => some e

/-- The test `os.IsNotExist(err)`; false for the `nil` error. -/
def os.IsNotExist : Option OsError → Bool
  | some .notExist => true
  | _ => false

/-- The call `os.Mkdir(name, perm)`: creates the directory when nothing is at `name`,
and otherwise fails leaving the filesystem as it is. -/
def os.Mkdir (fs : FS) (name : String) : FS × Option OsError :=
  match fs name with
  | none => (Function.update fs name (some .dir), none)
  | some _ => (fs, some .exist)

/-- The call `ioutil.ReadFile(filename)`. -/
def ioutil.ReadFile (fs : FS) (filename : String) : Except OsError String :=
  match fs filename with
  | some (.file content) => .ok content
  | some .dir => .error .isDir
  | none => .error .notExist

/-- The command-line flags of the process: `formal` holds the names of the declared
flags, `actual` the names of the flags that were set on the command line. -/
structure FlagSet where
  formal : List String
  actual : List String

/-- The call `flag.Visit(fn)`: calls `fn` for each flag that has been set. The callback
is a state transformer over the variables its closure captures. -/
def flag.Visit {σ : Type} (fl : FlagSet) (fn : σ → String → σ) (s : σ) : σ :=
  fl.actual.foldl fn s

/-- The function `hasFlag` of golden.go: `found` starts false and is set by the callback
on every visited flag whose name is `name`. -/
def hasFlag (fl : FlagSet) (name : String) : Bool :=
  flag.Visit fl (fun found f => if f == name then true else found) false

/-- The function `strings.HasSuffix(s, suffix)`:
`len(s) >= len(suffix) && s[len(s)-len(suffix):] == suffix`. Lengths and slices are
taken in characters; for text in UTF-8 a suffix in characters is a suffix in bytes. -/
def strings.HasSuffix (s suffix : String) : Bool :=
  decide (s.length ≥ suffix.length) && (s.data.drop (s.length - suffix.length) == suffix.data)

/-! ## golden.go -/

/-- The loop body of `indent`: `for i := 0; i < n; i++ { indentation[i] = ' ' }`,
started at index `i`. -/
def indentLoop (n : Nat) (i : Nat) (indentation : List Char) : List Char :=
  if i < n then indentLoop n (i + 1) (indentation.set i ' ') else indentation
termination_by n - i

/-- The limit of the Go runtime on the size in bytes of one allocation, on a 64-bit
platform (48 bits of heap address). -/
def maxAlloc : Nat := 2 ^ 48

/-- The size in bytes of a `rune`. -/
def runeSize : Nat := 4

/-- The call `make([]rune, n)`: the runtime faults ("makeslice: len out of range") when
the length is negative or when the slice would take more than `maxAlloc` bytes, and
otherwise gives `n` zero runes. Every `n` beyond the range of a Go `int` is above the
limit. -/
def makeRunes (n : Int) : Option (List Char) :=
  if n < 0 ∨ (runeSize : Int) * n > (maxAlloc : Int) then none
  else some (List.replicate n.toNat (Char.ofNat 0))

/-- The function `indent(n)`: the slice of `make([]rune, n)`, each rune of which the loop
overwrites, as a string; it faults when `make` does. -/
def indent (n : Int) : Option String :=
  match makeRunes n with
  | none => none
  | some indentation => some (String.mk (indentLoop n.toNat 0 indentation))

/-- The configuration of a `json.Encoder` set by `SetIndent`. -/
structure Encoder where
  indentPrefix : String
  indentValue : String
deriving DecidableEq, Repr

/-- The package-level variables of golden.go. -/
structure Pkg where
  JSONEncoder : Encoder
  JSONFileBuffer : String
deriving DecidableEq, Repr

/-- The function `init`: a new encoder attached to the (empty) buffer, then
`SetIndent("", indent(JSONIndent))`. It faults when `indent` does. -/
def init : Option Pkg :=
  match indent JSONIndent with
  | none => none
  | some s => some { JSONEncoder := { indentPrefix := "", indentValue := s }, JSONFileBuffer := "" }

/-- The test handle: only `t.Name()` is read by the package; failures reported through
the handle are part of the outcome of a call. -/
structure T where
  name : String

/-- The observable calls made by `AssertMatchesGolden`. -/
inductive Event where
  | mkdir (name : String)
  | goldenAssert (actual filename : String)
deriving DecidableEq, Repr

/-- Whether an event is a call of the golden-comparison collaborator. -/
def Event.isGoldenAssert : Event → Bool
  | .goldenAssert _ _ => true
  | _ => false

/-- How a call ends: with a fault (the `panic` of a format string and its arguments), or
by returning, with or without a test failure reported through `t`. -/
inductive Outcome where
  | fault (format : String) (args : List String)
  | returned (failed : Bool)
deriving DecidableEq, Repr

/-- The golden-comparison collaborator `golden.Assert(t, actual, filename)`: from the
flags and the filesystem it gives the filesystem it leaves and whether the comparison
succeeded. -/
abbrev GoldenAssert := FlagSet → FS → String → String → FS × Bool

/-- The state after a call of `AssertMatchesGolden`. -/
structure Result where
  fs : FS
  trace : List Event
  outcome : Outcome

/-- The function `AssertMatchesGolden(t, actualValueAsGoldenFile, expectedValue)`. -/
def AssertMatchesGolden (goldenAssert : GoldenAssert) (fl : FlagSet) (fs : FS) (t : T)
    (actualValueAsGoldenFile expectedValue : String) : Result :=
  let made : FS × List Event :=
    if os.IsNotExist (errOf (os.Stat fs GoldenDir)) then
      if hasFlag fl GoldenUpdateFlag then
        ((os.Mkdir fs GoldenDir).1, [Event.mkdir GoldenDir])
      else (fs, [])
    else (fs, [])
  if !strings.HasSuffix t.name GoldenTestFunctionSuffix then
    { fs := made.1, trace := made.2,
      outcome := .fault "snapshot test is named %q: must end %q"
        [t.name, "..." ++ GoldenTestFunctionSuffix] }
  else
    let r := goldenAssert fl made.1 expectedValue ("golden." ++ actualValueAsGoldenFile)
    { fs := r.1,
      trace := made.2 ++ [Event.goldenAssert expectedValue ("golden." ++ actualValueAsGoldenFile)],
      outcome := .returned (!r.2) }

/-- Modelled from the spec: the golden-comparison collaborator `golden.Assert` of the
library gotest.tools/golden, whose code is not part of the package. The golden file of
`filename` lies in the directory `testdata/`; when the update flag is supplied to the
test run the file is created or overwritten with the actual value (which needs the
directory), and the comparison of the file with the actual value is byte for byte; a
missing file or a mismatch is a failure. -/
def golden.Assert : GoldenAssert := fun fl fs actual filename =>
  let path := GoldenDir ++ "/" ++ filename
  let fs1 : FS :=
    if GoldenUpdateFlag ∈ fl.actual then
      (match fs GoldenDir with
       | some .dir => Function.update fs path (some (.file actual))
       | _ => fs)
    else fs
  match fs1 path with
  | some (.file expected) => (fs1, expected == actual)
  | _ => (fs1, false)

/-- The JSON marshaller behind `json.Encoder`, a black box of the package: from the
indentation settings and a value, the newline-terminated text or an error. -/
abbrev Marshal (Value : Type) := String → String → Value → Except String String

/-- The call `JSONEncoder.Encode(v)`: the encoder marshals into a buffer of its own and
writes the text to the attached `JSONFileBuffer` only when marshalling succeeded. -/
def Encode {Value : Type} (marshal : Marshal Value) (pkg : Pkg) (v : Value) :
    Pkg × Option String :=
  match marshal pkg.JSONEncoder.indentPrefix pkg.JSONEncoder.indentValue v with
  | .error e => (pkg, some e)
  | .ok b => ({ pkg with JSONFileBuffer := pkg.JSONFileBuffer ++ b }, none)

/-- The state after a call of `AssertMarshaledJSONGolden`: `handed` is the text passed to
`AssertMatchesGolden` when that call was reached, and the outcome is either the
serialization error on which `require.NoError` stopped the test, or the outcome of
`AssertMatchesGolden`. -/
structure JSONResult where
  pkg : Pkg
  fs : FS
  handed : Option String
  trace : List Event
  outcome : Except String Outcome

/-- The function `AssertMarshaledJSONGolden(t, actualValueAsGoldenFile, expectedValue)`. -/
def AssertMarshaledJSONGolden {Value : Type} (marshal : Marshal Value)
    (goldenAssert : GoldenAssert) (fl : FlagSet) (pkg : Pkg) (fs : FS) (t : T)
    (actualValueAsGoldenFile : String) (expectedValue : Value) : JSONResult :=
  let enc := Encode marshal pkg expectedValue
  match enc.2 with
  | some err => { pkg := enc.1, fs := fs, handed := none, trace := [], outcome := .error err }
  | none =>
    let str := enc.1.JSONFileBuffer
    let pkg2 : Pkg := { enc.1 with JSONFileBuffer := "" }
    let r := AssertMatchesGolden goldenAssert fl fs t actualValueAsGoldenFile str
    { pkg := pkg2, fs := r.fs, handed := some str, trace := r.trace, outcome := .ok r.outcome }

/-- The arguments of one call of `AssertMarshaledJSONGolden`. -/
structure Call (Value : Type) where
  t : T
  name : String
  value : Value

/-- A sequence of calls of `AssertMarshaledJSONGolden` in one process, whatever the
outcome of each: the package variables and the filesystem are threaded through. -/
def runCalls {Value : Type} (marshal : Marshal Value) (goldenAssert : GoldenAssert)
    (fl : FlagSet) : List (Call Value) → Pkg × FS → Pkg × FS
  | [], st => st
  | c :: cs, st =>
    let r := AssertMarshaledJSONGolden marshal goldenAssert fl st.1 st.2 c.t c.name c.value
    runCalls marshal goldenAssert fl cs (r.pkg, r.fs)

/-! ## testutils.go -/

/-- The process environment: each variable is unset, or set to a value. -/
abbrev Env := String → Option String

/-- The call `os.Getenv(key)`: the value, which is empty for the empty key and when the
variable is unset. -/
def os.Getenv (env : Env) (key : String) : String :=
  if key.length = 0 then ""
  else
    match env key with
    | some v => v
    | none => ""

/-- The keys that `os.Setenv` accepts: `len(key) != 0`, and no byte of the key is `=`
or NUL. -/
def acceptedKey (key : String) : Bool :=
  key.length != 0 && key.data.all (fun c => !(c == '=' || c == Char.ofNat 0))

/-- The values that `os.Setenv` accepts: no byte of the value is NUL. -/
def acceptedValue (value : String) : Bool :=
  value.data.all (fun c => !(c == Char.ofNat 0))

/-- The call `os.Setenv(key, value)`: for a key or a value that it does not accept the
call returns the invalid-argument error and leaves the environment as it is; otherwise
the variable is set. -/
def os.Setenv (env : Env) (key value : String) : Env × Option OsError :=
  if acceptedKey key && acceptedValue value then
    (Function.update env key (some value), none)
  else (env, some .invalid)

/-- A Go `map[string]string`: entries with pairwise different keys. -/
structure GoMap where
  entries : List (String × String)
  nodup : (entries.map Prod.fst).Nodup

/-- The keys of a map. -/
def GoMap.keys (m : GoMap) : List String := m.entries.map Prod.fst

/-- The map literal `map[string]string{}`. -/
def GoMap.empty : GoMap := ⟨[], List.nodup_nil⟩

/-- The index expression `m[k]`: the zero value `""` when the key is absent. -/
def GoMap.get (m : GoMap) (k : String) : String :=
  match m.entries.lookup k with
  | some v => v
  | none => ""

/-- The assignment `m[k] = v`. -/
def GoMap.set (m : GoMap) (k v : String) : GoMap where
  entries := (k, v) :: m.entries.filter (fun e => e.1 != k)
  nodup := by
    rw [List.map_cons, List.nodup_cons]
    refine ⟨?_, m.nodup.sublist ((List.filter_sublist _).map _)⟩
    simp only [List.mem_map, List.mem_filter]
    rintro ⟨e, ⟨_, he⟩, hk⟩
    simp [hk] at he

/-- The orders in which one `range` statement may visit the keys of a map: every key
once, in an order that the language leaves open. -/
def GoMap.RangeOrder (m : GoMap) (order : List String) : Prop :=
  order.Perm m.keys

/-- The closure `resetEnv` returned by `LoadYAMLEnv`, with the two maps it captures. -/
structure ResetEnv where
  newenvvars : GoMap
  oldenvvars : GoMap

/-- A call of the closure: `for name := range newenvvars { os.Setenv(name, oldenvvars[name]) }`,
where `order` is the order in which this `range` visits the keys of `newenvvars`; the
error result of `os.Setenv` is dropped. -/
def ResetEnv.call (r : ResetEnv) (order : List String) (env : Env) : Env :=
  order.foldl (fun e name => (os.Setenv e name (r.oldenvvars.get name)).1) env

/-- The loop `for name, value := range newenvvars` of `LoadYAMLEnv` over the entries in
the order the `range` visits them, on the snapshot map and the environment; the error
result of `os.Setenv` is dropped. -/
def loadLoop : List (String × String) → GoMap → Env → GoMap × Env
  | [], oldenvvars, env => (oldenvvars, env)
  | (name, value) :: rest, oldenvvars, env =>
    loadLoop rest (oldenvvars.set name (os.Getenv env name)) (os.Setenv env name value).1

/-- The state after a call of `LoadYAMLEnv`: the environment, and either the error with
which the call faulted or the closure it returned. -/
structure LoadResult where
  env : Env
  outcome : Except OsError ResetEnv

/-- The function `LoadYAMLEnv(t, filepath)`. The parameter `unmarshal` is the YAML parser,
a black box of the package: what `yaml.Unmarshal(byt, &newenvvars)` leaves in the
initially empty map (its error result is dropped). The first `range` visits the entries
of the map in the order of `entries`. -/
def LoadYAMLEnv (unmarshal : String → GoMap) (fs : FS) (env : Env) (_t : T)
    (filepath : String) : LoadResult :=
  let filepath := if filepath == "" then "./env.yaml" else filepath
  match ioutil.ReadFile fs filepath with
  | .error err => { env := env, outcome := .error err }
  | .ok byt =>
    let newenvvars := unmarshal byt
    let st := loadLoop newenvvars.entries GoMap.empty env
    { env := st.2, outcome := .ok { newenvvars := newenvvars, oldenvvars := st.1 } }

/-- A test name ends in the required suffix. -/
def EndsInSuffix (name : String) : Prop :=
  ∃ p : String, name = p ++ GoldenTestFunctionSuffix

/-- A collaborator that leaves the filesystem as it is and reports success. -/
def noCompare : GoldenAssert := fun _ fs _ _ => (fs, true)

/-- A filesystem whose only entry is the file `./env.yaml` with the given content. -/
def envYAML (content : String) : FS :=
  Function.update emptyFS "./env.yaml" (some (.file content))

/-- The mapping that the YAML parser gives for a file whose only key is the empty
string, with the value `x`. -/
def emptyKeyMap : GoMap := ⟨[("", "x")], by decide⟩

/-- The mapping that the YAML parser gives for the file content `A=B: x`. -/
def equalsKeyMap : GoMap := ⟨[("A=B", "x")], by decide⟩

/-- The mapping that the YAML parser gives for the file content `FOO: bar`. -/
def fooBar : GoMap := ⟨[("FOO", "bar")], by decide⟩

/-- A filesystem whose only entry is the file `./env.yaml` with the content `FOO: bar`. -/
def fooBarFS : FS := Function.update emptyFS "./env.yaml" (some (.file "FOO: bar"))

/-- The environment in which every variable is unset. -/
def emptyEnv : Env := fun _ => none

/-! ## Theorems -/

theorem hasSuffix_iff (s suffix : String) :
    strings.HasSuffix s suffix = true ↔ ∃ p : String, s = p ++ suffix := by
  unfold strings.HasSuffix
  constructor
  · intro h
    simp only [Bool.and_eq_true, decide_eq_true_eq, beq_iff_eq] at h
    refine ⟨String.mk (s.data.take (s.length - suffix.length)), ?_⟩
    apply String.ext
    rw [String.data_append, ← h.2]
    exact (List.take_append_drop _ _).symm
  · rintro ⟨p, rfl⟩
    simp only [String.length_append, Bool.and_eq_true, decide_eq_true_eq, beq_iff_eq,
      String.data_append]
    refine ⟨by omega, ?_⟩
    have hlen : p.length + suffix.length - suffix.length = p.data.length := by
      rw [Nat.add_sub_cancel]
      rfl
    rw [hlen, List.drop_left]

theorem hasFlag_iff (fl : FlagSet) (name : String) :
    hasFlag fl name = true ↔ name ∈ fl.actual := by
  unfold hasFlag flag.Visit
  have key : ∀ (l : List String) (b : Bool),
      l.foldl (fun found f => if f == name then true else found) b = true ↔
        (b = true ∨ name ∈ l) := by
    intro l
    induction l with
    | nil => intro b; simp
    | cons a l ih =>
      intro b
      rw [List.foldl_cons, ih]
      by_cases ha : a = name
      · subst ha
        simp
      · have hne : name ≠ a := fun h => ha h.symm
        simp only [beq_iff_eq, ha, if_false, List.mem_cons, hne, false_or]
  simpa using key fl.actual false

/-! ### The conditions of `AssertMatchesGolden` -/

theorem isNotExist_stat_iff (fs : FS) (name : String) :
    os.IsNotExist (errOf (os.Stat fs name)) = true ↔ fs name = none := by
  unfold os.Stat
  cases h : fs name <;> simp [errOf, os.IsNotExist]

theorem mkdir_of_none (fs : FS) (name : String) (h : fs name = none) :
    (os.Mkdir fs name).1 = Function.update fs name (some .dir) := by
  unfold os.Mkdir
  rw [h]

/-- The filesystem that `AssertMatchesGolden` leaves before it checks the test name. -/
theorem amg_fault_eq (goldenAssert : GoldenAssert) (fl : FlagSet) (fs : FS) (t : T)
    (n s : String) (h : strings.HasSuffix t.name GoldenTestFunctionSuffix = false) :
    AssertMatchesGolden goldenAssert fl fs t n s =
      { fs := if fs GoldenDir = none ∧ GoldenUpdateFlag ∈ fl.actual then
                Function.update fs GoldenDir (some .dir) else fs,
        trace := if fs GoldenDir = none ∧ GoldenUpdateFlag ∈ fl.actual then
                [Event.mkdir GoldenDir] else [],
        outcome := .fault "snapshot test is named %q: must end %q"
          [t.name, "..." ++ GoldenTestFunctionSuffix] } := by
  unfold AssertMatchesGolden
  simp only [h, Bool.not_false, if_true]
  by_cases h1 : fs GoldenDir = none
  · by_cases h2 : GoldenUpdateFlag ∈ fl.actual
    · simp only [(isNotExist_stat_iff fs GoldenDir).2 h1, (hasFlag_iff fl GoldenUpdateFlag).2 h2,
        if_true, mkdir_of_none fs GoldenDir h1, h1, h2, and_self]
    · have h3 : hasFlag fl GoldenUpdateFlag = false := by
        rw [← Bool.not_eq_true, hasFlag_iff]; exact h2
      simp [(isNotExist_stat_iff fs GoldenDir).2 h1, h3, h2]
  · have h3 : os.IsNotExist (errOf (os.Stat fs GoldenDir)) = false := by
      rw [← Bool.not_eq_true, isNotExist_stat_iff]; exact h1
    simp [h3, h1]

theorem amg_returned_eq (goldenAssert : GoldenAssert) (fl : FlagSet) (fs : FS) (t : T)
    (n s : String) (h : strings.HasSuffix t.name GoldenTestFunctionSuffix = true) :
    AssertMatchesGolden goldenAssert fl fs t n s =
      { fs := (goldenAssert fl
          (if fs GoldenDir = none ∧ GoldenUpdateFlag ∈ fl.actual then
            Function.update fs GoldenDir (some .dir) else fs) s ("golden." ++ n)).1,
        trace := (if fs GoldenDir = none ∧ GoldenUpdateFlag ∈ fl.actual then
                [Event.mkdir GoldenDir] else []) ++ [Event.goldenAssert s ("golden." ++ n)],
        outcome := .returned (!(goldenAssert fl
          (if fs GoldenDir = none ∧ GoldenUpdateFlag ∈ fl.actual then
            Function.update fs GoldenDir (some .dir) else fs) s ("golden." ++ n)).2) } := by
  unfold AssertMatchesGolden
  simp only [h, Bool.not_true, Bool.false_eq_true, if_false]
  by_cases h1 : fs GoldenDir = none
  · by_cases h2 : GoldenUpdateFlag ∈ fl.actual
    · simp only [(isNotExist_stat_iff fs GoldenDir).2 h1, (hasFlag_iff fl GoldenUpdateFlag).2 h2,
        if_true, mkdir_of_none fs GoldenDir h1, h1, h2, and_self]
    · have h3 : hasFlag fl GoldenUpdateFlag = false := by
        rw [← Bool.not_eq_true, hasFlag_iff]; exact h2
      simp [(isNotExist_stat_iff fs GoldenDir).2 h1, h3, h2]
  · have h3 : os.IsNotExist (errOf (os.Stat fs GoldenDir)) = false := by
      rw [← Bool.not_eq_true, isNotExist_stat_iff]; exact h1
    simp [h3, h1]

theorem hasSuffix_false_iff (name : String) :
    strings.HasSuffix name GoldenTestFunctionSuffix = false ↔ ¬ EndsInSuffix name := by
  rw [← Bool.not_eq_true, hasSuffix_iff]
  rfl

/-! ### The loop of `indent` -/

theorem indentLoop_getElem? (n : Nat) :
    ∀ (k i : Nat) (l : List Char), n - i = k → l.length = n → ∀ j : Nat,
      (indentLoop n i l)[j]? = if i ≤ j ∧ j < n then some ' ' else l[j]? := by
  intro k
  induction k with
  | zero =>
    intro i l hk _ j
    rw [indentLoop, if_neg (by omega), if_neg (by omega)]
  | succ k ih =>
    intro i l hk hl j
    rw [indentLoop, if_pos (by omega), ih (i + 1) _ (by omega) (by rw [List.length_set, hl]),
      List.getElem?_set]
    by_cases h1 : i + 1 ≤ j ∧ j < n
    · rw [if_pos h1, if_pos ⟨by omega, h1.2⟩]
    · rw [if_neg h1]
      by_cases h2 : i = j
      · subst h2
        rw [if_pos rfl, if_pos (by omega), if_pos ⟨le_refl _, by omega⟩]
      · rw [if_neg h2, if_neg (by omega)]

theorem indentLoop_eq (n : Nat) :
    indentLoop n 0 (List.replicate n (Char.ofNat 0)) = List.replicate n ' ' := by
  apply List.ext_getElem?
  intro j
  rw [indentLoop_getElem? n n 0 _ (by omega) (by simp)]
  by_cases h : j < n
  · rw [if_pos ⟨Nat.zero_le _, h⟩, List.getElem?_replicate, if_pos h]
  · rw [if_neg (by omega), List.getElem?_replicate, List.getElem?_replicate, if_neg h, if_neg h]

theorem indent_eq (n : Int) (hn : 0 ≤ n) (hmax : (runeSize : Int) * n ≤ (maxAlloc : Int)) :
    indent n = some (String.mk (List.replicate n.toNat ' ')) := by
  unfold indent makeRunes
  rw [if_neg (by omega)]
  dsimp only
  rw [indentLoop_eq]

theorem indent_of_large (n : Int) (hmax : (maxAlloc : Int) < (runeSize : Int) * n) :
    indent n = none := by
  unfold indent makeRunes
  rw [if_pos (Or.inr hmax)]

theorem indent_JSONIndent : indent JSONIndent = some "  " := by
  rw [indent_eq JSONIndent (by decide) (by decide)]
  rfl

/-! ### Claims on golden.go -/

/-- The loop is not reached for a large length: `indent(1 << 62)`, a call with a
non-negative Go `int`, faults in `make` and returns no string. -/
theorem indent_large_counterexample :
    (0 : Int) ≤ 2 ^ 62 ∧ (2 : Int) ^ 62 < 2 ^ 63 ∧ indent (2 ^ 62) = none :=
  ⟨by decide, by decide, indent_of_large (2 ^ 62) (by decide)⟩

/-- C9 (amended): for every n >= 0 within the allocation limit of the runtime (4 * n bytes
at most `maxAlloc`), `indent(n)` returns a string of length n all of whose characters are
the space character, and `init` configures the shared encoder with the empty prefix and
the indent string `indent(JSONIndent)`, which is exactly two spaces. -/
theorem indent_spaces_within_limit (n : Int) (hn : 0 ≤ n)
    (hmax : (runeSize : Int) * n ≤ (maxAlloc : Int)) :
    (∃ s : String, indent n = some s ∧ (s.length : Int) = n ∧ ∀ c ∈ s.data, c = ' ') ∧
    indent JSONIndent = some "  " ∧
    init = some { JSONEncoder := { indentPrefix := "", indentValue := "  " },
                  JSONFileBuffer := "" } := by
  refine ⟨⟨_, indent_eq n hn hmax, ?_, ?_⟩, indent_JSONIndent, ?_⟩
  · show ((List.replicate n.toNat ' ').length : Int) = n
    rw [List.length_replicate]
    exact Int.toNat_of_nonneg hn
  · intro c hc
    exact List.eq_of_mem_replicate hc
  · unfold init
    rw [indent_JSONIndent]

/-- At n = 3: `indent(3)` is a string of three spaces. -/
theorem indent_spaces_within_limit_witness :
    (∃ s : String, indent 3 = some s ∧ (s.length : Int) = 3 ∧ ∀ c ∈ s.data, c = ' ') ∧
    indent JSONIndent = some "  " ∧
    init = some { JSONEncoder := { indentPrefix := "", indentValue := "  " },
                  JSONFileBuffer := "" } :=
  indent_spaces_within_limit 3 (by decide) (by decide)

/-- The directory is created before the test name is checked: for the test name
"TestWidget", without a `testdata` directory and with the update flag supplied,
`AssertMatchesGolden` raises the structural fault on a filesystem that now holds the
directory `testdata`, which the filesystem before the call did not. -/
theorem fault_after_mkdir_counterexample :
    ¬ EndsInSuffix "TestWidget" ∧
    emptyFS GoldenDir = none ∧
    (AssertMatchesGolden noCompare ⟨[GoldenUpdateFlag], [GoldenUpdateFlag]⟩ emptyFS
        ⟨"TestWidget"⟩ "widget.txt" "hello").outcome =
      .fault "snapshot test is named %q: must end %q" ["TestWidget", "...Snapshot"] ∧
    (AssertMatchesGolden noCompare ⟨[GoldenUpdateFlag], [GoldenUpdateFlag]⟩ emptyFS
        ⟨"TestWidget"⟩ "widget.txt" "hello").fs GoldenDir = some .dir ∧
    (AssertMatchesGolden noCompare ⟨[GoldenUpdateFlag], [GoldenUpdateFlag]⟩ emptyFS
        ⟨"TestWidget"⟩ "widget.txt" "hello").fs ≠ emptyFS := by
  have hs : strings.HasSuffix "TestWidget" GoldenTestFunctionSuffix = false := by decide
  have hfs : (AssertMatchesGolden noCompare ⟨[GoldenUpdateFlag], [GoldenUpdateFlag]⟩ emptyFS
        ⟨"TestWidget"⟩ "widget.txt" "hello").fs GoldenDir = some .dir := by
    rw [amg_fault_eq _ _ _ _ _ _ hs]
    simp [emptyFS]
  refine ⟨(hasSuffix_false_iff _).1 hs, rfl, ?_, hfs, ?_⟩
  · rw [amg_fault_eq _ _ _ _ _ _ hs]
    rfl
  · intro h
    rw [h] at hfs
    simp [emptyFS] at hfs

/-- C3 (amended): for every test name that does not end in "Snapshot", and for every state
of the filesystem and of the update flag, `AssertMatchesGolden` raises the structural
fault, the golden-comparison collaborator is never called, and the filesystem when the
fault is raised is the filesystem before the call, except that the directory `testdata`
has been created when nothing was at that path and the update flag was supplied. -/
theorem fault_of_bad_name (goldenAssert : GoldenAssert) (fl : FlagSet) (fs : FS) (t : T)
    (n s : String) (hname : ¬ EndsInSuffix t.name) :
    (AssertMatchesGolden goldenAssert fl fs t n s).outcome =
      .fault "snapshot test is named %q: must end %q" [t.name, "...Snapshot"] ∧
    (∀ e ∈ (AssertMatchesGolden goldenAssert fl fs t n s).trace, e.isGoldenAssert = false) ∧
    (AssertMatchesGolden goldenAssert fl fs t n s).fs =
      (if fs GoldenDir = none ∧ GoldenUpdateFlag ∈ fl.actual then
        Function.update fs GoldenDir (some .dir) else fs) ∧
    ((fs GoldenDir ≠ none ∨ GoldenUpdateFlag ∉ fl.actual) →
      (AssertMatchesGolden goldenAssert fl fs t n s).fs = fs) := by
  have hs := (hasSuffix_false_iff t.name).2 hname
  rw [amg_fault_eq _ _ _ _ _ _ hs]
  refine ⟨rfl, ?_, rfl, ?_⟩
  · intro e he
    dsimp only at he
    split at he
    · rw [List.mem_singleton] at he
      rw [he]
      rfl
    · cases he
  · intro h
    dsimp only
    rw [if_neg]
    rintro ⟨h1, h2⟩
    rcases h with h | h
    · exact h h1
    · exact h h2

/-- The fault for the test name "TestWidget" on a filesystem that already holds the
directory `testdata`: the filesystem is left as it was. -/
theorem fault_of_bad_name_witness :
    (AssertMatchesGolden noCompare ⟨[GoldenUpdateFlag], [GoldenUpdateFlag]⟩
        (Function.update emptyFS GoldenDir (some .dir)) ⟨"TestWidget"⟩ "widget.txt" "hello").outcome =
      .fault "snapshot test is named %q: must end %q" ["TestWidget", "...Snapshot"] ∧
    (AssertMatchesGolden noCompare ⟨[GoldenUpdateFlag], [GoldenUpdateFlag]⟩
        (Function.update emptyFS GoldenDir (some .dir)) ⟨"TestWidget"⟩ "widget.txt" "hello").fs =
      Function.update emptyFS GoldenDir (some .dir) :=
  have h := fault_of_bad_name noCompare ⟨[GoldenUpdateFlag], [GoldenUpdateFlag]⟩
    (Function.update emptyFS GoldenDir (some .dir)) ⟨"TestWidget"⟩ "widget.txt" "hello"
    ((hasSuffix_false_iff _).1 (by decide))
  ⟨h.1, h.2.2.2 (Or.inl (by simp))⟩

/-- C4: for every test name ending in "Snapshot", every logical name n and every string
value s, `AssertMatchesGolden` raises no fault of its own and calls the golden-comparison
collaborator exactly once, with the value s unchanged and with the file name
"golden." ++ n; conversely it raises the structural fault exactly when the test name does
not end in "Snapshot". -/
theorem delegates_once_iff_good_name (goldenAssert : GoldenAssert) (fl : FlagSet) (fs : FS)
    (t : T) (n s : String) :
    (EndsInSuffix t.name →
      (∃ failed, (AssertMatchesGolden goldenAssert fl fs t n s).outcome = .returned failed) ∧
      (AssertMatchesGolden goldenAssert fl fs t n s).trace.filter Event.isGoldenAssert =
        [Event.goldenAssert s ("golden." ++ n)]) ∧
    ((∃ format args, (AssertMatchesGolden goldenAssert fl fs t n s).outcome =
        .fault format args) ↔ ¬ EndsInSuffix t.name) := by
  by_cases hname : EndsInSuffix t.name
  · have hs : strings.HasSuffix t.name GoldenTestFunctionSuffix = true :=
      (hasSuffix_iff _ _).2 hname
    rw [amg_returned_eq _ _ _ _ _ _ hs]
    refine ⟨fun _ => ⟨⟨_, rfl⟩, ?_⟩, ?_⟩
    · dsimp only
      split <;> rfl
    · constructor
      · rintro ⟨format, args, h⟩
        cases h
      · intro h
        exact absurd hname h
  · have hs := (hasSuffix_false_iff t.name).2 hname
    rw [amg_fault_eq _ _ _ _ _ _ hs]
    exact ⟨fun h => absurd h hname, fun _ => hname, fun _ => ⟨_, _, rfl⟩⟩

/-- C8: the call attempts to create the directory "testdata" if and only if nothing is at
that path and the flag named "test.update-golden" is among the flags set on the command
line; `hasFlag` is true exactly for the names of flags that were set, whatever flags are
declared; and when the directory already exists, or the flag was not supplied,
`AssertMatchesGolden` makes no change to the filesystem before delegating: the
collaborator runs on the filesystem of the call, and a fault leaves that filesystem. -/
theorem mkdir_iff_missing_and_update_flag (goldenAssert : GoldenAssert) (fl : FlagSet)
    (fs : FS) (t : T) (n s : String) :
    (Event.mkdir GoldenDir ∈ (AssertMatchesGolden goldenAssert fl fs t n s).trace ↔
      (fs GoldenDir = none ∧ GoldenUpdateFlag ∈ fl.actual)) ∧
    (∀ name, hasFlag fl name = true ↔ name ∈ fl.actual) ∧
    (∀ declared, hasFlag ⟨declared, fl.actual⟩ GoldenUpdateFlag = hasFlag fl GoldenUpdateFlag) ∧
    ((fs GoldenDir ≠ none ∨ GoldenUpdateFlag ∉ fl.actual) →
      (AssertMatchesGolden goldenAssert fl fs t n s).fs =
        (if strings.HasSuffix t.name GoldenTestFunctionSuffix then
          (goldenAssert fl fs s ("golden." ++ n)).1 else fs) ∧
      ∀ name, Event.mkdir name ∉ (AssertMatchesGolden goldenAssert fl fs t n s).trace) := by
  refine ⟨?_, hasFlag_iff fl, fun _ => rfl, ?_⟩
  · cases hs : strings.HasSuffix t.name GoldenTestFunctionSuffix
    · rw [amg_fault_eq _ _ _ _ _ _ hs]
      dsimp only
      split <;> simp_all
    · rw [amg_returned_eq _ _ _ _ _ _ hs]
      dsimp only
      split <;> simp_all
  · intro h
    have hc : ¬ (fs GoldenDir = none ∧ GoldenUpdateFlag ∈ fl.actual) := by
      rintro ⟨h1, h2⟩
      rcases h with h | h
      · exact h h1
      · exact h h2
    cases hs : strings.HasSuffix t.name GoldenTestFunctionSuffix
    · rw [amg_fault_eq _ _ _ _ _ _ hs]
      simp [hc]
    · rw [amg_returned_eq _ _ _ _ _ _ hs]
      simp [hc]

/-- The call for "TestWidgetSnapshot" on the empty filesystem with the update flag: the
collaborator is called once with the value "hello" and the file name "golden.widget.txt",
and no fault is raised. -/
theorem delegates_once_iff_good_name_witness :
    (∃ failed, (AssertMatchesGolden noCompare ⟨[GoldenUpdateFlag], [GoldenUpdateFlag]⟩
        emptyFS ⟨"TestWidgetSnapshot"⟩ "widget.txt" "hello").outcome = .returned failed) ∧
    (AssertMatchesGolden noCompare ⟨[GoldenUpdateFlag], [GoldenUpdateFlag]⟩
        emptyFS ⟨"TestWidgetSnapshot"⟩ "widget.txt" "hello").trace.filter Event.isGoldenAssert =
      [Event.goldenAssert "hello" "golden.widget.txt"] :=
  (delegates_once_iff_good_name noCompare ⟨[GoldenUpdateFlag], [GoldenUpdateFlag]⟩
    emptyFS ⟨"TestWidgetSnapshot"⟩ "widget.txt" "hello").1 ⟨"TestWidget", by decide⟩

/-- The call on the empty filesystem with the update flag set attempts to create the
directory, and the call with the flag only declared does not. -/
theorem mkdir_iff_missing_and_update_flag_witness :
    Event.mkdir GoldenDir ∈ (AssertMatchesGolden noCompare
        ⟨[GoldenUpdateFlag], [GoldenUpdateFlag]⟩ emptyFS ⟨"TestWidgetSnapshot"⟩
        "widget.txt" "hello").trace ∧
    Event.mkdir GoldenDir ∉ (AssertMatchesGolden noCompare
        ⟨[GoldenUpdateFlag], []⟩ emptyFS ⟨"TestWidgetSnapshot"⟩ "widget.txt" "hello").trace :=
  ⟨(mkdir_iff_missing_and_update_flag noCompare ⟨[GoldenUpdateFlag], [GoldenUpdateFlag]⟩
      emptyFS ⟨"TestWidgetSnapshot"⟩ "widget.txt" "hello").1.2 ⟨rfl, by decide⟩,
   fun h => absurd ((mkdir_iff_missing_and_update_flag noCompare ⟨[GoldenUpdateFlag], []⟩
      emptyFS ⟨"TestWidgetSnapshot"⟩ "widget.txt" "hello").1.1 h).2 (by decide)⟩

/-! ### The golden round trip -/

theorem goldenPath_eq (n : String) :
    GoldenDir ++ "/" ++ ("golden." ++ n) = "testdata/golden." ++ n := by
  apply String.ext
  simp only [String.data_append]
  rfl

theorem goldenPath_ne_dir (f : String) : GoldenDir ++ "/" ++ f ≠ GoldenDir := by
  intro h
  have hl := congrArg String.length h
  rw [String.length_append, String.length_append] at hl
  have h1 : "/".length = 1 := rfl
  omega

theorem goldenAssert_update (fl : FlagSet) (fs : FS) (actual filename : String)
    (hupd : GoldenUpdateFlag ∈ fl.actual) (hdir : fs GoldenDir = some .dir) :
    golden.Assert fl fs actual filename =
      (Function.update fs (GoldenDir ++ "/" ++ filename) (some (.file actual)), true) := by
  unfold golden.Assert
  simp [hupd, hdir]

theorem goldenAssert_compare (fl : FlagSet) (fs : FS) (actual filename : String)
    (hno : GoldenUpdateFlag ∉ fl.actual)
    (hfile : fs (GoldenDir ++ "/" ++ filename) = some (.file actual)) :
    golden.Assert fl fs actual filename = (fs, true) := by
  unfold golden.Assert
  simp [hno, hfile]

/-- C5: for every test name ending in "Snapshot", every logical name n and every value s,
running `AssertMatchesGolden(t, n, s)` with the update flag supplied (starting with the
directory `testdata` or with nothing at that path) reports no test failure and leaves the
file testdata/golden.n with exactly the content s, and running `AssertMatchesGolden(t, n, s)`
again without the update flag reports no test failure. -/
theorem golden_round_trip (fl1 fl2 : FlagSet) (fs : FS) (t : T) (n s : String)
    (hname : EndsInSuffix t.name)
    (hupd : GoldenUpdateFlag ∈ fl1.actual) (hno : GoldenUpdateFlag ∉ fl2.actual)
    (hdir : fs GoldenDir = none ∨ fs GoldenDir = some .dir) :
    (AssertMatchesGolden golden.Assert fl1 fs t n s).outcome = .returned false ∧
    (AssertMatchesGolden golden.Assert fl1 fs t n s).fs GoldenDir = some .dir ∧
    (AssertMatchesGolden golden.Assert fl1 fs t n s).fs ("testdata/golden." ++ n) =
      some (.file s) ∧
    (AssertMatchesGolden golden.Assert fl2
      (AssertMatchesGolden golden.Assert fl1 fs t n s).fs t n s).outcome = .returned false := by
  have hs : strings.HasSuffix t.name GoldenTestFunctionSuffix = true :=
    (hasSuffix_iff _ _).2 hname
  have hfs1 : (if fs GoldenDir = none ∧ GoldenUpdateFlag ∈ fl1.actual then
      Function.update fs GoldenDir (some .dir) else fs) GoldenDir = some Node.dir := by
    rcases hdir with h | h
    · rw [if_pos ⟨h, hupd⟩, Function.update_same]
    · rw [if_neg (by rw [h]; simp)]
      exact h
  have hrun1 : AssertMatchesGolden golden.Assert fl1 fs t n s =
      { fs := Function.update (if fs GoldenDir = none ∧ GoldenUpdateFlag ∈ fl1.actual then
            Function.update fs GoldenDir (some .dir) else fs)
          (GoldenDir ++ "/" ++ ("golden." ++ n)) (some (.file s)),
        trace := (if fs GoldenDir = none ∧ GoldenUpdateFlag ∈ fl1.actual then
                [Event.mkdir GoldenDir] else []) ++ [Event.goldenAssert s ("golden." ++ n)],
        outcome := .returned false } := by
    rw [amg_returned_eq _ _ _ _ _ _ hs, goldenAssert_update _ _ _ _ hupd hfs1]
    rfl
  have hdir1 : (AssertMatchesGolden golden.Assert fl1 fs t n s).fs GoldenDir = some .dir := by
    rw [hrun1]
    dsimp only
    rw [Function.update_noteq (goldenPath_ne_dir _).symm]
    exact hfs1
  have hfile1 : (AssertMatchesGolden golden.Assert fl1 fs t n s).fs
      (GoldenDir ++ "/" ++ ("golden." ++ n)) = some (.file s) := by
    rw [hrun1]
    dsimp only
    rw [Function.update_same]
  refine ⟨by rw [hrun1], hdir1, by rw [← goldenPath_eq]; exact hfile1, ?_⟩
  rw [amg_returned_eq _ _ _ _ _ _ hs, if_neg (by rw [hdir1]; simp),
    goldenAssert_compare _ _ _ _ hno hfile1]
  rfl

/-- The round trip for the test "TestWidgetSnapshot", the name "widget.txt" and the value
"hello", without a `testdata` directory beforehand. -/
theorem golden_round_trip_witness :
    (AssertMatchesGolden golden.Assert ⟨[GoldenUpdateFlag], [GoldenUpdateFlag]⟩ emptyFS
      ⟨"TestWidgetSnapshot"⟩ "widget.txt" "hello").outcome = .returned false ∧
    (AssertMatchesGolden golden.Assert ⟨[GoldenUpdateFlag], [GoldenUpdateFlag]⟩ emptyFS
      ⟨"TestWidgetSnapshot"⟩ "widget.txt" "hello").fs GoldenDir = some .dir ∧
    (AssertMatchesGolden golden.Assert ⟨[GoldenUpdateFlag], [GoldenUpdateFlag]⟩ emptyFS
      ⟨"TestWidgetSnapshot"⟩ "widget.txt" "hello").fs ("testdata/golden." ++ "widget.txt") =
      some (.file "hello") ∧
    (AssertMatchesGolden golden.Assert ⟨[GoldenUpdateFlag], []⟩
      (AssertMatchesGolden golden.Assert ⟨[GoldenUpdateFlag], [GoldenUpdateFlag]⟩ emptyFS
        ⟨"TestWidgetSnapshot"⟩ "widget.txt" "hello").fs
      ⟨"TestWidgetSnapshot"⟩ "widget.txt" "hello").outcome = .returned false :=
  golden_round_trip ⟨[GoldenUpdateFlag], [GoldenUpdateFlag]⟩ ⟨[GoldenUpdateFlag], []⟩ emptyFS
    ⟨"TestWidgetSnapshot"⟩ "widget.txt" "hello" ⟨"TestWidget", by decide⟩
    (by decide) (by decide) (Or.inl rfl)

/-! ### The shared JSON buffer -/

theorem init_eq :
    init = some { JSONEncoder := { indentPrefix := "", indentValue := "  " },
                  JSONFileBuffer := "" } := by
  unfold init
  rw [indent_JSONIndent]

/-- One call on an empty buffer: the buffer is empty afterwards, the encoder keeps its
configuration, and the text handed over is the output of the marshaller for the value. -/
theorem amjg_of_empty {Value : Type} (marshal : Marshal Value) (goldenAssert : GoldenAssert)
    (fl : FlagSet) (pkg : Pkg) (fs : FS) (t : T) (n : String) (v : Value)
    (hbuf : pkg.JSONFileBuffer = "") :
    (AssertMarshaledJSONGolden marshal goldenAssert fl pkg fs t n v).pkg.JSONFileBuffer = "" ∧
    (AssertMarshaledJSONGolden marshal goldenAssert fl pkg fs t n v).pkg.JSONEncoder =
      pkg.JSONEncoder ∧
    (AssertMarshaledJSONGolden marshal goldenAssert fl pkg fs t n v).handed =
      (marshal pkg.JSONEncoder.indentPrefix pkg.JSONEncoder.indentValue v).toOption := by
  unfold AssertMarshaledJSONGolden Encode
  cases hm : marshal pkg.JSONEncoder.indentPrefix pkg.JSONEncoder.indentValue v with
  | error e => exact ⟨hbuf, rfl, rfl⟩
  | ok b =>
    refine ⟨rfl, rfl, ?_⟩
    simp [hbuf, Except.toOption]

theorem runCalls_invariant {Value : Type} (marshal : Marshal Value)
    (goldenAssert : GoldenAssert) (fl : FlagSet) (calls : List (Call Value)) :
    ∀ (st : Pkg × FS), st.1.JSONFileBuffer = "" →
      (runCalls marshal goldenAssert fl calls st).1.JSONFileBuffer = "" ∧
      (runCalls marshal goldenAssert fl calls st).1.JSONEncoder = st.1.JSONEncoder := by
  induction calls with
  | nil => intro st h; exact ⟨h, rfl⟩
  | cons c cs ih =>
    intro st h
    have h1 := amjg_of_empty marshal goldenAssert fl st.1 st.2 c.t c.name c.value h
    have h2 := ih ((AssertMarshaledJSONGolden marshal goldenAssert fl st.1 st.2 c.t c.name
      c.value).pkg, (AssertMarshaledJSONGolden marshal goldenAssert fl st.1 st.2 c.t c.name
      c.value).fs) h1.1
    exact ⟨h2.1, h2.2.trans h1.2.1⟩

/-- C6: starting from the empty buffer set up by `init`, after every call of
`AssertMarshaledJSONGolden`, whatever its outcome and whatever calls came before, the
shared `JSONFileBuffer` is empty; the text handed to `AssertMatchesGolden` is exactly the
output of the encoder (empty prefix, two spaces of indentation) for the current value
alone, and is handed over exactly when encoding succeeds; and two calls with the same
value, after any two sequences of earlier calls, hand over the same text. -/
theorem json_buffer_fresh_per_call {Value : Type} (marshal : Marshal Value)
    (goldenAssert : GoldenAssert) (fl : FlagSet) (fs0 : FS) (calls : List (Call Value))
    (t : T) (n : String) (v : Value) :
    ∃ pkg0, init = some pkg0 ∧ pkg0.JSONFileBuffer = "" ∧
      (AssertMarshaledJSONGolden marshal goldenAssert fl
        (runCalls marshal goldenAssert fl calls (pkg0, fs0)).1
        (runCalls marshal goldenAssert fl calls (pkg0, fs0)).2 t n v).pkg.JSONFileBuffer = "" ∧
      (AssertMarshaledJSONGolden marshal goldenAssert fl
        (runCalls marshal goldenAssert fl calls (pkg0, fs0)).1
        (runCalls marshal goldenAssert fl calls (pkg0, fs0)).2 t n v).handed =
          (marshal "" "  " v).toOption ∧
      ∀ (fs0b : FS) (callsb : List (Call Value)) (tb : T) (nb : String),
        (AssertMarshaledJSONGolden marshal goldenAssert fl
          (runCalls marshal goldenAssert fl callsb (pkg0, fs0b)).1
          (runCalls marshal goldenAssert fl callsb (pkg0, fs0b)).2 tb nb v).handed =
        (AssertMarshaledJSONGolden marshal goldenAssert fl
          (runCalls marshal goldenAssert fl calls (pkg0, fs0)).1
          (runCalls marshal goldenAssert fl calls (pkg0, fs0)).2 t n v).handed := by
  refine ⟨_, init_eq, rfl, ?_⟩
  have key : ∀ (fsa : FS) (cs : List (Call Value)) (ta : T) (na : String),
      (AssertMarshaledJSONGolden marshal goldenAssert fl
        (runCalls marshal goldenAssert fl cs
          ({ JSONEncoder := { indentPrefix := "", indentValue := "  " },
             JSONFileBuffer := "" }, fsa)).1
        (runCalls marshal goldenAssert fl cs
          ({ JSONEncoder := { indentPrefix := "", indentValue := "  " },
             JSONFileBuffer := "" }, fsa)).2 ta na v).pkg.JSONFileBuffer = "" ∧
      (AssertMarshaledJSONGolden marshal goldenAssert fl
        (runCalls marshal goldenAssert fl cs
          ({ JSONEncoder := { indentPrefix := "", indentValue := "  " },
             JSONFileBuffer := "" }, fsa)).1
        (runCalls marshal goldenAssert fl cs
          ({ JSONEncoder := { indentPrefix := "", indentValue := "  " },
             JSONFileBuffer := "" }, fsa)).2 ta na v).handed = (marshal "" "  " v).toOption := by
    intro fsa cs ta na
    have hinv := runCalls_invariant marshal goldenAssert fl cs
      ({ JSONEncoder := { indentPrefix := "", indentValue := "  " },
         JSONFileBuffer := "" }, fsa) rfl
    have h := amjg_of_empty marshal goldenAssert fl
      (runCalls marshal goldenAssert fl cs
        ({ JSONEncoder := { indentPrefix := "", indentValue := "  " },
           JSONFileBuffer := "" }, fsa)).1
      (runCalls marshal goldenAssert fl cs
        ({ JSONEncoder := { indentPrefix := "", indentValue := "  " },
           JSONFileBuffer := "" }, fsa)).2 ta na v hinv.1
    refine ⟨h.1, ?_⟩
    rw [h.2.2, hinv.2]
  refine ⟨(key fs0 calls t n).1, (key fs0 calls t n).2, ?_⟩
  intro fs0b callsb tb nb
  rw [(key fs0b callsb tb nb).2, (key fs0 calls t n).2]

/-! ### Maps and the environment -/

theorem lookup_filter_ne (k j : String) (hjk : j ≠ k) (l : List (String × String)) :
    (l.filter (fun e => e.1 != k)).lookup j = l.lookup j := by
  induction l with
  | nil => rfl
  | cons e l ih =>
    obtain ⟨a, b⟩ := e
    by_cases hak : a = k
    · subst hak
      have hja : (j == a) = false := by simpa using hjk
      simp [List.filter_cons, List.lookup_cons, hja, ih]
    · have hne : (a != k) = true := by simpa using hak
      rw [List.filter_cons]
      simp only [hne, if_true, List.lookup_cons, ih]

theorem GoMap.get_set (m : GoMap) (k v j : String) :
    (m.set k v).get j = if j = k then v else m.get j := by
  unfold GoMap.get GoMap.set
  by_cases hjk : j = k
  · subst hjk
    simp [List.lookup_cons]
  · have hb : (j == k) = false := by simpa using hjk
    simp only [List.lookup_cons, hb, lookup_filter_ne k j hjk, if_neg hjk]

theorem setenv_of_accepted (env : Env) (k v : String)
    (hk : acceptedKey k = true) (hv : acceptedValue v = true) :
    (os.Setenv env k v).1 = Function.update env k (some v) := by
  unfold os.Setenv
  rw [hk, hv]
  rfl

theorem setenv_of_refused (env : Env) (k v : String)
    (h : (acceptedKey k && acceptedValue v) = false) :
    (os.Setenv env k v).1 = env := by
  unfold os.Setenv
  rw [h]
  rfl

theorem setenv_ne (env : Env) (k v j : String) (hjk : j ≠ k) :
    (os.Setenv env k v).1 j = env j := by
  unfold os.Setenv
  split
  · exact Function.update_noteq hjk _ _
  · rfl

theorem getenv_setenv_ne (env : Env) (k v j : String) (hjk : j ≠ k) :
    os.Getenv (os.Setenv env k v).1 j = os.Getenv env j := by
  unfold os.Getenv
  rw [setenv_ne env k v j hjk]

theorem length_ne_zero_of_accepted (k : String) (hk : acceptedKey k = true) :
    k.length ≠ 0 := by
  unfold acceptedKey at hk
  rw [Bool.and_eq_true] at hk
  simpa using hk.1

theorem acceptedValue_empty : acceptedValue "" = true := rfl

theorem getenv_of_none (env : Env) (k : String) (h : env k = none) : os.Getenv env k = "" := by
  unfold os.Getenv
  split
  · rfl
  · rw [h]

theorem getenv_of_some (env : Env) (k v : String) (hk : acceptedKey k = true)
    (h : env k = some v) : os.Getenv env k = v := by
  unfold os.Getenv
  rw [if_neg (length_ne_zero_of_accepted k hk), h]

/-- The loop of the load: every entry of the map that `os.Setenv` accepts holds its new
value in the environment, every entry holds its earlier reading in the snapshot, and
everything else is as before. -/
theorem loadLoop_spec (entries : List (String × String)) :
    (entries.map Prod.fst).Nodup → ∀ (old : GoMap) (env : Env),
      (∀ name value, (name, value) ∈ entries →
        (acceptedKey name = true → acceptedValue value = true →
          (loadLoop entries old env).2 name = some value) ∧
        ((acceptedKey name && acceptedValue value) = false →
          (loadLoop entries old env).2 name = env name) ∧
        (loadLoop entries old env).1.get name = os.Getenv env name) ∧
      (∀ name, name ∉ entries.map Prod.fst →
        (loadLoop entries old env).2 name = env name ∧
        (loadLoop entries old env).1.get name = old.get name) := by
  induction entries with
  | nil =>
    intro _ old env
    exact ⟨fun _ _ h => absurd h (List.not_mem_nil _), fun _ _ => ⟨rfl, rfl⟩⟩
  | cons e rest ih =>
    obtain ⟨k, v⟩ := e
    intro hnd old env
    rw [List.map_cons, List.nodup_cons] at hnd
    obtain ⟨hk, hrest⟩ := hnd
    have ih1 := ih hrest (old.set k (os.Getenv env k)) (os.Setenv env k v).1
    constructor
    · intro name value hmem
      rw [List.mem_cons] at hmem
      rcases hmem with heq | hmem
      · obtain ⟨rfl, rfl⟩ := Prod.mk.inj heq
        have h := ih1.2 name hk
        refine ⟨?_, ?_, ?_⟩
        · intro hak hav
          show (loadLoop rest _ _).2 name = some value
          rw [h.1, setenv_of_accepted env name value hak hav]
          exact Function.update_same _ _ _
        · intro hre
          show (loadLoop rest _ _).2 name = env name
          rw [h.1, setenv_of_refused env name value hre]
        · show (loadLoop rest _ _).1.get name = os.Getenv env name
          rw [h.2, GoMap.get_set, if_pos rfl]
      · have h := ih1.1 name value hmem
        have hne : name ≠ k := by
          rintro rfl
          exact hk (List.mem_map.2 ⟨(name, value), hmem, rfl⟩)
        refine ⟨?_, ?_, ?_⟩
        · exact h.1
        · intro hre
          show (loadLoop rest _ _).2 name = env name
          rw [h.2.1 hre, setenv_ne env k v name hne]
        · show (loadLoop rest _ _).1.get name = os.Getenv env name
          rw [h.2.2, getenv_setenv_ne env k v name hne]
    · intro name hname
      rw [List.map_cons, List.mem_cons, not_or] at hname
      have h := ih1.2 name hname.2
      refine ⟨?_, ?_⟩
      · show (loadLoop rest _ _).2 name = env name
        rw [h.1]
        exact setenv_ne env k v name hname.1
      · show (loadLoop rest _ _).1.get name = old.get name
        rw [h.2, GoMap.get_set, if_neg hname.1]

/-- The loop of the closure: the variables it visits, when `os.Setenv` accepts the name
and the snapshot value, hold their snapshot value, and every other variable is as
before. -/
theorem resetEnv_call_spec (r : ResetEnv) (order : List String) :
    ∀ (env : Env) (name : String),
      r.call order env name =
        if name ∈ order ∧ (acceptedKey name && acceptedValue (r.oldenvvars.get name)) = true
        then some (r.oldenvvars.get name) else env name := by
  unfold ResetEnv.call
  induction order with
  | nil =>
    intro env name
    rw [if_neg (fun h => absurd h.1 (List.not_mem_nil _))]
    rfl
  | cons k ks ih =>
    intro env name
    rw [List.foldl_cons, ih]
    by_cases hacc : (acceptedKey name && acceptedValue (r.oldenvvars.get name)) = true
    · by_cases h1 : name ∈ ks
      · rw [if_pos ⟨h1, hacc⟩, if_pos ⟨List.mem_cons_of_mem _ h1, hacc⟩]
      · rw [if_neg (fun h => h1 h.1)]
        by_cases h2 : name = k
        · subst h2
          rw [if_pos ⟨List.mem_cons_self _ _, hacc⟩]
          rw [Bool.and_eq_true] at hacc
          rw [setenv_of_accepted env name _ hacc.1 hacc.2]
          exact Function.update_same _ _ _
        · rw [if_neg (fun h => by
            rcases List.mem_cons.1 h.1 with h3 | h3
            · exact h2 h3
            · exact h1 h3)]
          exact setenv_ne env k _ name h2
    · rw [if_neg (fun h => hacc h.2), if_neg (fun h => hacc h.2)]
      by_cases h2 : name = k
      · subst h2
        rw [setenv_of_refused env name _ (by simpa using hacc)]
      · exact setenv_ne env k _ name h2

theorem GoMap.get_empty (name : String) : GoMap.empty.get name = "" := rfl

/-- The path that `LoadYAMLEnv` reads: the given path, or "./env.yaml" when it is empty. -/
theorem loadYAMLEnv_of_read (unmarshal : String → GoMap) (fs : FS) (env : Env) (t : T)
    (filepath byt : String)
    (hread : ioutil.ReadFile fs (if filepath = "" then "./env.yaml" else filepath) = .ok byt) :
    LoadYAMLEnv unmarshal fs env t filepath =
      { env := (loadLoop (unmarshal byt).entries GoMap.empty env).2,
        outcome := .ok { newenvvars := unmarshal byt,
                         oldenvvars := (loadLoop (unmarshal byt).entries GoMap.empty env).1 } } := by
  unfold LoadYAMLEnv
  simp only [beq_iff_eq]
  rw [hread]

theorem loadYAMLEnv_of_error (unmarshal : String → GoMap) (fs : FS) (env : Env) (t : T)
    (filepath : String) (err : OsError)
    (hread : ioutil.ReadFile fs (if filepath = "" then "./env.yaml" else filepath) = .error err) :
    LoadYAMLEnv unmarshal fs env t filepath = { env := env, outcome := .error err } := by
  unfold LoadYAMLEnv
  simp only [beq_iff_eq]
  rw [hread]

/-! ### Claims on testutils.go -/

/-- The restore does not set a variable whose name `os.Setenv` refuses: the parsed
mapping has the single key "" (with the value "x"), the variable is unset before
loading, and after load and restore it is still unset, not set to the empty string. -/
theorem restore_refused_key_counterexample :
    ("", "x") ∈ emptyKeyMap.entries ∧ emptyEnv "" = none ∧
    ∃ r, (LoadYAMLEnv (fun _ => emptyKeyMap) (envYAML "'': x") emptyEnv
        ⟨"TestExample"⟩ "").outcome = .ok r ∧
      r.call [""] (LoadYAMLEnv (fun _ => emptyKeyMap) (envYAML "'': x") emptyEnv
        ⟨"TestExample"⟩ "").env "" = none ∧
      r.call [""] (LoadYAMLEnv (fun _ => emptyKeyMap) (envYAML "'': x") emptyEnv
        ⟨"TestExample"⟩ "").env "" ≠ some "" := by
  refine ⟨List.mem_singleton.2 rfl, rfl, _, rfl, ?_, ?_⟩
  · decide
  · decide

/-- C1 (amended): for every environment and every parsed file mapping, after `LoadYAMLEnv`
is run and the returned `resetEnv` function is then called (whatever the order in which
its loop visits the map), every variable named in the file whose name `os.Setenv` accepts
(not empty, without `=` and NUL) and that was set to v before loading, v without NUL, is
set to v again, and every such variable that was unset before loading is now present
with the empty string as value. -/
theorem load_restore_round_trip (unmarshal : String → GoMap) (fs : FS) (env : Env) (t : T)
    (filepath byt : String) (order : List String)
    (hread : ioutil.ReadFile fs (if filepath = "" then "./env.yaml" else filepath) = .ok byt)
    (horder : (unmarshal byt).RangeOrder order) :
    ∃ r, (LoadYAMLEnv unmarshal fs env t filepath).outcome = .ok r ∧
      r.newenvvars = unmarshal byt ∧
      ∀ name value, (name, value) ∈ (unmarshal byt).entries → acceptedKey name = true →
        (∀ v, env name = some v → acceptedValue v = true →
          r.call order (LoadYAMLEnv unmarshal fs env t filepath).env name = some v) ∧
        (env name = none →
          r.call order (LoadYAMLEnv unmarshal fs env t filepath).env name = some "") := by
  rw [loadYAMLEnv_of_read unmarshal fs env t filepath byt hread]
  refine ⟨_, rfl, rfl, ?_⟩
  intro name value hmem hname
  have hkey : name ∈ order :=
    (List.Perm.mem_iff horder).2 (List.mem_map.2 ⟨(name, value), hmem, rfl⟩)
  have hold := ((loadLoop_spec (unmarshal byt).entries (unmarshal byt).nodup GoMap.empty env).1
    name value hmem).2.2
  rw [resetEnv_call_spec]
  dsimp only
  rw [hold]
  constructor
  · intro v hv hacc
    rw [getenv_of_some env name v hname hv, if_pos ⟨hkey, by rw [hname, hacc]; rfl⟩]
  · intro hv
    rw [getenv_of_none env name hv, if_pos ⟨hkey, by rw [hname, acceptedValue_empty]; rfl⟩]

/-- The file `FOO: bar` with FOO unset beforehand: after the restore FOO is set to the
empty string. -/
theorem load_restore_round_trip_witness :
    ∃ r, (LoadYAMLEnv (fun _ => fooBar) fooBarFS emptyEnv ⟨"TestExample"⟩ "").outcome = .ok r ∧
      r.call ["FOO"] (LoadYAMLEnv (fun _ => fooBar) fooBarFS emptyEnv ⟨"TestExample"⟩ "").env
        "FOO" = some "" :=
  match load_restore_round_trip (fun _ => fooBar) fooBarFS emptyEnv ⟨"TestExample"⟩ ""
      "FOO: bar" ["FOO"] rfl (List.Perm.refl _) with
  | ⟨r, hr, _, h⟩ => ⟨r, hr, (h "FOO" "bar" (List.mem_singleton.2 rfl) (by decide)).2 rfl⟩

/-- The load does not set a variable whose name `os.Setenv` refuses: for the readable file
`A=B: x` the entry ("A=B", "x") is in the parsed mapping, and after `LoadYAMLEnv` returns
the variable A=B is unset, so it does not hold the value "x". -/
theorem load_refused_key_counterexample :
    ioutil.ReadFile (envYAML "A=B: x") "./env.yaml" = .ok "A=B: x" ∧
    ("A=B", "x") ∈ equalsKeyMap.entries ∧
    (LoadYAMLEnv (fun _ => equalsKeyMap) (envYAML "A=B: x") emptyEnv
      ⟨"TestExample"⟩ "").env "A=B" = none ∧
    (LoadYAMLEnv (fun _ => equalsKeyMap) (envYAML "A=B: x") emptyEnv
      ⟨"TestExample"⟩ "").env "A=B" ≠ some "x" := by
  refine ⟨rfl, List.mem_singleton.2 rfl, ?_, ?_⟩
  · decide
  · decide

/-- C2 (amended): for every readable file and every entry (name, value) of the mapping
parsed from it, immediately after `LoadYAMLEnv` returns the environment variable name
holds exactly value when `os.Setenv` accepts the name (not empty, without `=` and NUL)
and the value (without NUL), and the snapshot kept for the restore closure holds for name
the value that reading the variable returned before the load (the empty string when it
was unset). -/
theorem load_postcondition (unmarshal : String → GoMap) (fs : FS) (env : Env) (t : T)
    (filepath byt : String)
    (hread : ioutil.ReadFile fs (if filepath = "" then "./env.yaml" else filepath) = .ok byt) :
    ∃ r, (LoadYAMLEnv unmarshal fs env t filepath).outcome = .ok r ∧
      r.newenvvars = unmarshal byt ∧
      ∀ name value, (name, value) ∈ (unmarshal byt).entries →
        (acceptedKey name = true → acceptedValue value = true →
          (LoadYAMLEnv unmarshal fs env t filepath).env name = some value) ∧
        r.oldenvvars.get name = os.Getenv env name ∧
        (env name = none → r.oldenvvars.get name = "") := by
  rw [loadYAMLEnv_of_read unmarshal fs env t filepath byt hread]
  refine ⟨_, rfl, rfl, ?_⟩
  intro name value hmem
  have h := (loadLoop_spec (unmarshal byt).entries (unmarshal byt).nodup GoMap.empty env).1
    name value hmem
  refine ⟨h.1, h.2.2, ?_⟩
  intro hv
  dsimp only
  rw [h.2.2]
  exact getenv_of_none env name hv

/-- The file `FOO: bar` with FOO unset beforehand: after the load FOO is set to "bar". -/
theorem load_postcondition_witness :
    (LoadYAMLEnv (fun _ => fooBar) fooBarFS emptyEnv ⟨"TestExample"⟩ "").env "FOO" =
      some "bar" :=
  match load_postcondition (fun _ => fooBar) fooBarFS emptyEnv ⟨"TestExample"⟩ ""
      "FOO: bar" rfl with
  | ⟨_, _, _, h⟩ => (h "FOO" "bar" (List.mem_singleton.2 rfl)).1 (by decide) (by decide)

/-- C7: `LoadYAMLEnv` raises the setup fault if and only if reading the file at the
effective path fails, where the effective path is the given path when it is non-empty
and "./env.yaml" when it is empty; the fault carries the error of the read, and when it
is raised the environment equals the environment before the call and no restore
function is returned. -/
theorem load_fault_iff_read_fails (unmarshal : String → GoMap) (fs : FS) (env : Env) (t : T)
    (filepath : String) :
    ((∃ err, (LoadYAMLEnv unmarshal fs env t filepath).outcome = .error err) ↔
      (∃ err, ioutil.ReadFile fs (if filepath = "" then "./env.yaml" else filepath) =
        .error err)) ∧
    (∀ err, (LoadYAMLEnv unmarshal fs env t filepath).outcome = .error err →
      ioutil.ReadFile fs (if filepath = "" then "./env.yaml" else filepath) = .error err ∧
      (LoadYAMLEnv unmarshal fs env t filepath).env = env ∧
      ∀ r, (LoadYAMLEnv unmarshal fs env t filepath).outcome ≠ .ok r) := by
  cases hread : ioutil.ReadFile fs (if filepath = "" then "./env.yaml" else filepath) with
  | error e =>
    rw [loadYAMLEnv_of_error unmarshal fs env t filepath e hread]
    refine ⟨⟨fun _ => ⟨e, rfl⟩, fun _ => ⟨e, rfl⟩⟩, ?_⟩
    intro err herr
    have herr2 : (Except.error e : Except OsError String) = Except.error err := by
      cases herr
      rfl
    refine ⟨herr2, rfl, ?_⟩
    intro r hr
    cases hr
  | ok byt =>
    rw [loadYAMLEnv_of_read unmarshal fs env t filepath byt hread]
    refine ⟨⟨?_, ?_⟩, ?_⟩
    · rintro ⟨err, herr⟩
      cases herr
    · rintro ⟨err, herr⟩
      cases herr
    · intro err herr
      cases herr

/-- C10: for every environment and every parsed file mapping, every environment variable
whose name is not a key of the mapping has the same state after `LoadYAMLEnv` returns as
before it, and the same state after the returned `resetEnv` function is called; when the
parsed mapping is empty, load and restore both leave the whole environment unchanged. -/
theorem load_restore_frame (unmarshal : String → GoMap) (fs : FS) (env : Env) (t : T)
    (filepath byt : String) (order : List String)
    (hread : ioutil.ReadFile fs (if filepath = "" then "./env.yaml" else filepath) = .ok byt)
    (horder : (unmarshal byt).RangeOrder order) :
    ∃ r, (LoadYAMLEnv unmarshal fs env t filepath).outcome = .ok r ∧
      r.newenvvars = unmarshal byt ∧
      (∀ name, name ∉ (unmarshal byt).keys →
        (LoadYAMLEnv unmarshal fs env t filepath).env name = env name ∧
        r.call order (LoadYAMLEnv unmarshal fs env t filepath).env name = env name) ∧
      ((unmarshal byt).entries = [] →
        (LoadYAMLEnv unmarshal fs env t filepath).env = env ∧
        r.call order (LoadYAMLEnv unmarshal fs env t filepath).env = env) := by
  rw [loadYAMLEnv_of_read unmarshal fs env t filepath byt hread]
  have hframe : ∀ name, name ∉ (unmarshal byt).keys →
      (loadLoop (unmarshal byt).entries GoMap.empty env).2 name = env name ∧
      ResetEnv.call { newenvvars := unmarshal byt,
                      oldenvvars := (loadLoop (unmarshal byt).entries GoMap.empty env).1 }
        order (loadLoop (unmarshal byt).entries GoMap.empty env).2 name = env name := by
    intro name hname
    have h := ((loadLoop_spec (unmarshal byt).entries (unmarshal byt).nodup GoMap.empty env).2
      name hname).1
    have hkey : name ∉ order := fun hmem => hname ((List.Perm.mem_iff horder).1 hmem)
    refine ⟨h, ?_⟩
    rw [resetEnv_call_spec, if_neg (fun hc => hkey hc.1)]
    exact h
  refine ⟨_, rfl, rfl, hframe, ?_⟩
  intro hempty
  have hnone : ∀ name, name ∉ (unmarshal byt).keys := by
    intro name
    unfold GoMap.keys
    rw [hempty]
    exact List.not_mem_nil _
  exact ⟨funext fun name => (hframe name (hnone name)).1,
    funext fun name => (hframe name (hnone name)).2⟩

/-- The file `FOO: bar` with BAZ set to "qux" beforehand: BAZ is set to "qux" after the
load and after the restore. -/
theorem load_restore_frame_witness :
    ∃ r, (LoadYAMLEnv (fun _ => fooBar) fooBarFS (Function.update emptyEnv "BAZ" (some "qux"))
        ⟨"TestExample"⟩ "").outcome = .ok r ∧
      (LoadYAMLEnv (fun _ => fooBar) fooBarFS (Function.update emptyEnv "BAZ" (some "qux"))
        ⟨"TestExample"⟩ "").env "BAZ" = some "qux" ∧
      r.call ["FOO"] (LoadYAMLEnv (fun _ => fooBar) fooBarFS
        (Function.update emptyEnv "BAZ" (some "qux")) ⟨"TestExample"⟩ "").env "BAZ" =
          some "qux" :=
  match load_restore_frame (fun _ => fooBar) fooBarFS
      (Function.update emptyEnv "BAZ" (some "qux")) ⟨"TestExample"⟩ ""
      "FOO: bar" ["FOO"] rfl (List.Perm.refl _) with
  | ⟨r, hr, _, h, _⟩ =>
    ⟨r, hr, ((h "BAZ" (by decide)).1).trans (Function.update_same _ _ _),
      ((h "BAZ" (by decide)).2).trans (Function.update_same _ _ _)⟩

end Gotestutils
